import Mathlib

/-!
Verification of the PyTorrent torrent session manager
(`torrent_engine.py`, class `TorrentEngine`).

The manager owns two insertion-ordered maps keyed by torrent id
(`_torrents : id → engine handle` and `_meta : id → descriptor`), a
persisted state file at a current location and a legacy location, and
talks to an external torrent engine (libtorrent).  We embed the manager
shallowly: Python dicts become association lists, the external engine
becomes an oracle structure, files become an abstract `FileState`, and
code that may raise returns `Except`.
-/

namespace PyTorrent

/-- A persisted torrent descriptor value: the `{"kind": ..., "source": ...}`
part of an entry of `_meta` (the id is the map key). -/
structure Descriptor where
  kind : String
  source : String
deriving DecidableEq, Repr

/-- Raw per-torrent engine status, the fields of `handle.status()` read by
`get_status_list`.  Numeric fields that Python treats as `float` are
modelled as rationals. -/
structure RawStatus where
  state : Int
  total_done : Int
  total_wanted : Int
  progress : ℚ
  download_rate : ℚ
  upload_rate : ℚ
  name : String
  paused : Bool
  is_seeding : Bool
  num_peers : Int
deriving DecidableEq, Repr

/-- The part of `handle.get_torrent_info()` used by `get_status_list`:
per-file sizes (`files.file_size idx` for `idx < files.num_files()`)
and the torrent name. -/
structure TorrentInfo where
  fileSizes : List Int
  name : String
deriving DecidableEq, Repr

/-- An engine torrent handle, modelled by the answers its engine-side
queries return.  `none` means the corresponding call raises
(`status` raising `RuntimeError` marks the handle invalidated). -/
structure Handle where
  status : Option RawStatus
  torrentInfo : Option TorrentInfo
  filePriorities : Option (List Int)
deriving DecidableEq, Repr

/-- One row of the list returned by `get_status_list`. -/
structure Snapshot where
  id : String
  name : String
  progress : ℚ
  download_rate : ℚ
  upload_rate : ℚ
  state : String
  total_size : Int
  downloaded : Int
  num_peers : Int
  eta : Int
  is_paused : Bool
  is_seeding : Bool
deriving DecidableEq, Repr

/-! ### Status reconciliation (`get_status_list`, lines 148-221) -/

/-- The fixed raw-state table `state_names`. -/
def state_names : List String :=
  ["Queued", "Checking", "Downloading metadata", "Downloading",
   "Finished", "Seeding", "Allocating", "Checking fastresume"]

/-- `state_names[s.state]` when `0 <= s.state < len(state_names)`,
else `"Unknown"`. -/
def rawStateName (s : Int) : String :=
  if 0 ≤ s ∧ s < (state_names.length : Int) then
    state_names.getD s.toNat "Unknown"
  else
    "Unknown"

/-- The loop summing `files.file_size(idx)` over indices with
`priorities[idx] > 0` (the two lists have equal length at the call site). -/
def prioritizedSize (sizes : List Int) (prios : List Int) : Int :=
  (sizes.zip prios).foldl (fun acc p => if 0 < p.2 then acc + p.1 else acc) 0

/-- Effective total size (lines 163-179): start from `s.total_wanted`;
if the torrent info is retrievable, the priorities list is non-empty and
matches the file count, and the prioritized size sum is positive, use that
sum.  A failing `file_priorities()` call yields `[]`; a failing
`get_torrent_info()` aborts the whole override. -/
def effectiveTotalSize (h : Handle) (wanted : Int) : Int :=
  match h.torrentInfo with
  | none => wanted
  | some info =>
    let prios := h.filePriorities.getD []
    if prios ≠ [] ∧ prios.length = info.fileSizes.length then
      let s := prioritizedSize info.fileSizes prios
      if 0 < s then s else wanted
    else wanted

/-- ETA computation (lines 183-187): `remaining = max(0, total_size - downloaded)`;
`int(remaining / download_rate)` if both rate and remaining are positive,
else `-1`.  Python's `int()` truncates, which on the nonnegative quotient
equals the floor. -/
def etaOf (total_size downloaded : Int) (download_rate : ℚ) : Int :=
  let remaining := max 0 (total_size - downloaded)
  if 0 < download_rate ∧ 0 < remaining then
    ⌊(remaining : ℚ) / download_rate⌋
  else
    -1

/-- Display-state derivation (lines 197-204): paused wins, then seeding,
otherwise the low-rate mid-progress override relabels to "Resuming",
otherwise the raw-state name stands. -/
def displayState (rawName : String) (is_paused is_seeding : Bool)
    (progress download_rate : ℚ) : String :=
  if is_paused then "Paused"
  else if is_seeding then "Seeding"
  else if 0 < progress ∧ progress < 1 ∧ download_rate < 50 * 1024 then "Resuming"
  else rawName

/-- Name fallback (lines 188-194 and 209): the status name, else the
torrent-info name, else the placeholder. -/
def snapshotName (h : Handle) (s : RawStatus) : String :=
  let n := if s.name ≠ "" then s.name else (h.torrentInfo.map TorrentInfo.name).getD ""
  if n = "" then "(metadata...)" else n

/-- The snapshot built for one tracked entry whose `handle.status()`
call succeeded (lines 148-221). -/
def mkSnapshot (tid : String) (h : Handle) (s : RawStatus) : Snapshot :=
  let total_size := effectiveTotalSize h s.total_wanted
  { id := tid
    name := snapshotName h s
    progress := s.progress
    download_rate := s.download_rate
    upload_rate := s.upload_rate
    state := displayState (rawStateName s.state) s.paused s.is_seeding
      s.progress s.download_rate
    total_size := total_size
    downloaded := s.total_done
    num_peers := s.num_peers
    eta := etaOf total_size s.total_done s.download_rate
    is_paused := s.paused
    is_seeding := s.is_seeding }

/-! ### A model of the Python/JSON values handled by the persistence code -/

/-- A JSON value as produced by `json.load` (numbers restricted to the
integers the state files actually hold). -/
inductive Json where
  | null
  | bool (b : Bool)
  | num (n : Int)
  | str (s : String)
  | arr (xs : List Json)
  | obj (kvs : List (String × Json))

/-- Python truthiness of a JSON value (`if not data`). -/
def pyFalsy : Json → Bool
  | Json.null => true
  | Json.bool b => !b
  | Json.num n => n = 0
  | Json.str s => s = ""
  | Json.arr xs => xs.isEmpty
  | Json.obj kvs => kvs.isEmpty

/-- Python `==` against a string literal. -/
def Json.isStr (j : Json) (s : String) : Bool :=
  match j with
  | Json.str t => t = s
  | _ => false

/-- Key lookup in an object's key-value list (first occurrence). -/
def jlookup : List (String × Json) → String → Option Json
  | [], _ => none
  | p :: rest, k => if p.1 = k then some p.2 else jlookup rest k

/-- Exceptions the persistence code can leak. -/
inductive PyErr where
  | attributeError
  | typeError
deriving DecidableEq, Repr

/-- Python `x.get(key, default)`: only dicts have `.get`; any other value
raises `AttributeError`. -/
def pyGet (j : Json) (k : String) (dflt : Json) : Except PyErr Json :=
  match j with
  | Json.obj kvs => Except.ok ((jlookup kvs k).getD dflt)
  | _ => Except.error PyErr.attributeError

/-- Python `for item in x`: lists yield elements, strings yield 1-character
strings, dicts yield their keys; everything else raises `TypeError`. -/
def pyIter (j : Json) : Except PyErr (List Json) :=
  match j with
  | Json.arr xs => Except.ok xs
  | Json.str s => Except.ok (s.data.map (fun c => Json.str (String.mk [c])))
  | Json.obj kvs => Except.ok (kvs.map (fun p => Json.str p.1))
  | _ => Except.error PyErr.typeError

/-- State of one on-disk file location: missing, raising on read,
readable but not JSON, or parsing to a JSON value. -/
inductive FileState where
  | absent
  | ioError
  | invalid
  | json (j : Json)

/-! ### Manager state and the engine oracle -/

/-- Association-list model of a Python dict (keys unique, insertion
ordered).  `d[k] = v` overwrites in place or appends. -/
def insertA {α : Type} (m : List (String × α)) (k : String) (v : α) :
    List (String × α) :=
  if m.any (fun p => p.1 = k) then
    m.map (fun p => if p.1 = k then (k, v) else p)
  else
    m ++ [(k, v)]

/-- `d.pop(k, None)`'s effect on the dict. -/
def removeA {α : Type} (m : List (String × α)) (k : String) :
    List (String × α) :=
  m.filter (fun p => p.1 ≠ k)

/-- The key list of a dict model. -/
def keys {α : Type} (m : List (String × α)) : List String :=
  m.map Prod.fst

/-- Oracle for the external engine's add operations: given a source
(path or magnet URI) it either raises (`none`) or yields the torrent id
derived by `_get_torrent_id` together with the created handle. -/
structure Engine where
  addFile : String → Option (String × Handle)
  addMagnet : String → Option (String × Handle)

/-- The engine add call a descriptor of the given kind leads to. -/
def engAdd (eng : Engine) (d : Descriptor) : Option (String × Handle) :=
  if d.kind = "file" then eng.addFile d.source else eng.addMagnet d.source

/-- The manager state: the `_torrents` and `_meta` dicts plus the two
state-file locations. -/
structure EngineState where
  torrents : List (String × Handle)
  meta : List (String × Descriptor)
  fsCurrent : FileState
  fsLegacy : FileState

/-! ### Persistence (`_save_state`, lines 32-44) -/

/-- The JSON object `_save_state` serializes for one `_meta` entry. -/
def descItemJson (p : String × Descriptor) : Json :=
  Json.obj [("id", Json.str p.1), ("kind", Json.str p.2.kind),
            ("source", Json.str p.2.source)]

/-- The JSON document `_save_state` writes: all of `_meta` under the
"torrents" key, in map order. -/
def saveStateJson (meta : List (String × Descriptor)) : Json :=
  Json.obj [("torrents", Json.arr (meta.map descItemJson))]

/-- `_save_state`: overwrite the current-location file with the serialized
`_meta`; an I/O failure (`writeOk = false`) is swallowed and, modelled
atomically, leaves the file as it was. -/
def doSave (st : EngineState) (writeOk : Bool) : EngineState :=
  if writeOk then
    { st with fsCurrent := FileState.json (saveStateJson st.meta) }
  else st

/-! ### The mutating operations -/

/-- Shared tail of both add operations (lines 102-108 and 117-123):
record handle and descriptor under the engine-derived id, then save. -/
def recordAdd (st : EngineState) (tid : String) (h : Handle)
    (d : Descriptor) (writeOk : Bool) : EngineState :=
  doSave { st with
            torrents := insertA st.torrents tid h
            meta := insertA st.meta tid d } writeOk

/-- `add_torrent_file` (lines 93-109): a failing engine add
(`lt.torrent_info` or `session.add_torrent`) propagates to the caller;
the optional per-file priority list only shapes the engine-side handle
and is folded into the oracle. -/
def addTorrentFile (eng : Engine) (st : EngineState) (path : String)
    (writeOk : Bool) : Except Unit (String × EngineState) :=
  match eng.addFile path with
  | none => Except.error ()
  | some (tid, h) =>
    Except.ok (tid, recordAdd st tid h (Descriptor.mk "file" path) writeOk)

/-- `add_magnet` (lines 111-124). -/
def addMagnet (eng : Engine) (st : EngineState) (uri : String)
    (writeOk : Bool) : Except Unit (String × EngineState) :=
  match eng.addMagnet uri with
  | none => Except.error ()
  | some (tid, h) =>
    Except.ok (tid, recordAdd st tid h (Descriptor.mk "magnet" uri) writeOk)

/-- `pause` (lines 226-233): `handle.pause()` only changes engine-side
state and any failure is swallowed, so the manager-visible effect is just
the unconditional `_save_state` at the end. -/
def pause (st : EngineState) (tid : String) (writeOk : Bool) : EngineState :=
  doSave st writeOk

/-- `resume` (lines 235-241): no map change and no save at all. -/
def resume (st : EngineState) (tid : String) : EngineState :=
  st

/-- `remove` (lines 243-257): pop the id from both dicts before any
engine call; every engine failure (including the delete-files fallback)
is swallowed.  Note: no `_save_state` call. -/
def remove (st : EngineState) (tid : String) (deleteFiles : Bool) :
    EngineState :=
  { st with torrents := removeA st.torrents tid, meta := removeA st.meta tid }

/-- `close` (lines 259-266): best-effort pause of every handle (engine
side only), clear `_torrents`, save. -/
def close (st : EngineState) (writeOk : Bool) : EngineState :=
  doSave { st with torrents := [] } writeOk

/-- `get_status_list` (lines 139-224): snapshot every entry whose
`status()` call succeeds (in map order), then pop the ids whose call
raised `RuntimeError` from `_torrents` only. -/
def getStatusList (st : EngineState) : List Snapshot × EngineState :=
  (st.torrents.filterMap (fun p => p.2.status.map (fun s => mkSnapshot p.1 p.2 s)),
   { st with torrents := st.torrents.filter (fun p => p.2.status.isSome) })

/-! ### `_load_state` (lines 46-84) -/

/-- Reading phase (lines 47-67): read the current-location file (missing
file skipped, read/parse failure caught, and a file parsing to JSON
`null` leaves `data is None`, so it falls through to the legacy file
exactly like a missing one); when that produced nothing and a legacy
file exists, read it, immediately rewrite its contents to the current
location and delete the legacy file, a failed delete being ignored.
A failing rewrite is caught by the same `except` that guards the legacy
read, so it abandons the data (`data = None`) before the delete is
attempted; it is modelled as leaving the current file untouched. -/
def loadPhase1 (st : EngineState) (writeOk removeOk : Bool) :
    Option Json × EngineState :=
  let dataCur : Option Json :=
    match st.fsCurrent with
    | FileState.json Json.null => none
    | FileState.json j => some j
    | _ => none
  match dataCur with
  | some j => (some j, st)
  | none =>
    match st.fsLegacy with
    | FileState.json j =>
      if writeOk then
        let st1 := { st with fsCurrent := FileState.json j }
        if removeOk then (some j, { st1 with fsLegacy := FileState.absent })
        else (some j, st1)
      else (none, st)
    | _ => (none, st)

/-- The `try: add... except: continue` body of the restore loop for one
item whose kind and source are both truthy (lines 78-84).  A non-string
source makes the engine call raise, which the `except` swallows. -/
def tryRestore (eng : Engine) (st : EngineState) (kind source : Json)
    (writeOk : Bool) : EngineState :=
  if kind.isStr "file" then
    match source with
    | Json.str s =>
      match addTorrentFile eng st s writeOk with
      | Except.ok (_, st') => st'
      | Except.error _ => st
    | _ => st
  else if kind.isStr "magnet" then
    match source with
    | Json.str s =>
      match addMagnet eng st s writeOk with
      | Except.ok (_, st') => st'
      | Except.error _ => st
    | _ => st
  else st

/-- The restore loop (lines 73-84).  `item.get` raises `AttributeError`
on non-dict items, and that is not caught. -/
def processItems (eng : Engine) (writeOk : Bool) :
    List Json → EngineState → Except PyErr EngineState
  | [], st => Except.ok st
  | item :: rest, st =>
    match pyGet item "kind" Json.null with
    | Except.error e => Except.error e
    | Except.ok kind =>
      match pyGet item "source" Json.null with
      | Except.error e => Except.error e
      | Except.ok source =>
        if pyFalsy kind || pyFalsy source then
          processItems eng writeOk rest st
        else
          processItems eng writeOk rest (tryRestore eng st kind source writeOk)

/-- `_load_state` in full: the reading/migration phase, the falsy
short-circuit (line 69), `data.get("torrents", [])` (line 72, can raise),
iteration (line 73, can raise), and the restore loop. -/
def loadState (eng : Engine) (st : EngineState) (writeOk removeOk : Bool) :
    Except PyErr EngineState :=
  match loadPhase1 st writeOk removeOk with
  | (none, st1) => Except.ok st1
  | (some data, st1) =>
    if pyFalsy data then Except.ok st1
    else
      match pyGet data "torrents" (Json.arr []) with
      | Except.error e => Except.error e
      | Except.ok torrents =>
        match pyIter torrents with
        | Except.error e => Except.error e
        | Except.ok items => processItems eng writeOk items st1

/-! ### Observers of the persisted file, for stating claims -/

/-- The descriptor items stored in a file, as JSON values. -/
def persistedItems (fs : FileState) : List Json :=
  match fs with
  | FileState.json (Json.obj kvs) =>
    match jlookup kvs "torrents" with
    | some (Json.arr xs) => xs
    | _ => []
  | _ => []

/-- The ids of the descriptors stored in a file. -/
def persistedIds (fs : FileState) : List String :=
  (persistedItems fs).filterMap (fun item =>
    match item with
    | Json.obj kvs =>
      match jlookup kvs "id" with
      | some (Json.str s) => some s
      | _ => none
    | _ => none)

/-! ### Spec-side definitions

These follow the specification's wording (display state by first-match
precedence over an explicit 8-value enumeration) and are compared against
the code-derived definitions above. -/

/-- Modelled from the spec: the fixed 8-value raw-state enumeration, with
"Unknown" for out-of-range raw values, written as the spec enumerates it. -/
def specRawStateName (s : Int) : String :=
  if s = 0 then "Queued"
  else if s = 1 then "Checking"
  else if s = 2 then "Downloading metadata"
  else if s = 3 then "Downloading"
  else if s = 4 then "Finished"
  else if s = 5 then "Seeding"
  else if s = 6 then "Allocating"
  else if s = 7 then "Checking fastresume"
  else "Unknown"

/-- Modelled from the spec: display state by first-match precedence —
"Paused" on `is_paused`, else "Seeding" on `is_seeding`, else the mapped
raw state relabeled "Resuming" whenever `0 < progress < 1` and
`download_rate < 50 KiB/s`. -/
def specDisplayState (s : RawStatus) : String :=
  if s.paused then "Paused"
  else if s.is_seeding then "Seeding"
  else
    let base := specRawStateName s.state
    if 0 < s.progress ∧ s.progress < 1 ∧ s.download_rate < 50 * 1024 then
      "Resuming"
    else base

/-- The condition under which the priority-sum override of the total size
applies: torrent info and priorities retrievable, counts matching, and a
positive prioritized size. -/
def prioritizedSelection (h : Handle) : Prop :=
  ∃ info prios, h.torrentInfo = some info ∧ h.filePriorities = some prios ∧
    prios.length = info.fileSizes.length ∧ 0 < prioritizedSize info.fileSizes prios

/-! ### Concrete inputs used by witnesses and counterexamples -/

/-- A handle whose every engine-side query raises. -/
def hEmpty : Handle := ⟨none, none, none⟩

/-- A raw status that is fully downloaded by its `progress` field yet has
positive remaining bytes and a positive rate. -/
def rawDoneButRemaining : RawStatus :=
  { state := 4, total_done := 0, total_wanted := 100, progress := 1,
    download_rate := 10, upload_rate := 0, name := "x", paused := false,
    is_seeding := false, num_peers := 0 }

/-- A mid-download raw status with a rate below the 50 KiB/s threshold
(the spec's Resuming scenario). -/
def rawStalled : RawStatus :=
  { state := 3, total_done := 42000, total_wanted := 100000, progress := 42/100,
    download_rate := 10000, upload_rate := 0, name := "demo", paused := false,
    is_seeding := false, num_peers := 3 }

/-- A handle with three files and a partial-selection priority list. -/
def hPartial : Handle :=
  ⟨some rawStalled, some ⟨[100, 200, 300], "demo"⟩, some [1, 0, 4]⟩

/-- An engine oracle on which every add raises. -/
def engNone : Engine := ⟨fun _ => none, fun _ => none⟩

/-- A handle whose status query succeeds with `rawStalled`. -/
def hLive : Handle := ⟨some rawStalled, none, none⟩

/-- A simple file descriptor. -/
def dA : Descriptor := ⟨"file", "/x.torrent"⟩

/-- A simple magnet descriptor. -/
def dB : Descriptor := ⟨"magnet", "magnet:?xt=urn:btih:cafe"⟩

/-- A one-torrent manager state whose persisted file is in sync. -/
def stOne : EngineState :=
  { torrents := [("a", hEmpty)], meta := [("a", dA)],
    fsCurrent := FileState.json (saveStateJson [("a", dA)]),
    fsLegacy := FileState.absent }

/-- A two-torrent state: "a" has an invalidated handle, "b" a live one. -/
def stTwo : EngineState :=
  { torrents := [("a", hEmpty), ("b", hLive)],
    meta := [("a", dA), ("b", dB)],
    fsCurrent := FileState.json (saveStateJson [("a", dA), ("b", dB)]),
    fsLegacy := FileState.absent }

/-- A state whose current-location file holds valid JSON that is not an
object: the list `[1]`. -/
def stBadJson : EngineState :=
  { torrents := [], meta := [], fsCurrent := FileState.json (Json.arr [Json.num 1]),
    fsLegacy := FileState.absent }

/-- A freshly constructed manager about to run `_load_state` against the
given pair of file states. -/
def freshState (cur leg : FileState) : EngineState :=
  { torrents := [], meta := [], fsCurrent := cur, fsLegacy := leg }

/-- The C10 invariant: every live-handle key is a descriptor key. -/
def liveSub (st : EngineState) : Prop :=
  ∀ k ∈ keys st.torrents, k ∈ keys st.meta

/-- A two-descriptor set with Unicode path and magnet source. -/
def metaPair : List (String × Descriptor) :=
  [("idα", ⟨"file", "/tmp/α β.torrent"⟩),
   ("m1", ⟨"magnet", "magnet:?xt=urn:btih:ünïcode"⟩)]

/-- An engine oracle that deterministically reproduces the ids of
`metaPair` from their sources. -/
def engPair : Engine :=
  ⟨fun s => if s = "/tmp/α β.torrent" then some ("idα", hEmpty) else none,
   fun s => if s = "magnet:?xt=urn:btih:ünïcode" then some ("m1", hLive) else none⟩

/-! ### Helper lemmas -/

/-- A popped key is absent from the resulting dict. -/
theorem not_mem_keys_removeA {α : Type} (m : List (String × α)) (k : String) :
    k ∉ keys (removeA m k) := by
  intro hmem
  rw [keys, List.mem_map] at hmem
  obtain ⟨p, hp, he⟩ := hmem
  rw [removeA, List.mem_filter] at hp
  exact of_decide_eq_true hp.2 he

/-- Key membership after a pop. -/
theorem mem_keys_removeA {α : Type} (m : List (String × α)) (k x : String) :
    x ∈ keys (removeA m k) ↔ x ∈ keys m ∧ x ≠ k := by
  constructor
  · intro hmem
    rw [keys, List.mem_map] at hmem
    obtain ⟨p, hp, he⟩ := hmem
    rw [removeA, List.mem_filter] at hp
    refine ⟨?_, ?_⟩
    · rw [← he]; exact List.mem_map_of_mem _ hp.1
    · rw [← he]; exact of_decide_eq_true hp.2
  · rintro ⟨hx, hne⟩
    rw [keys, List.mem_map] at hx
    obtain ⟨p, hp, he⟩ := hx
    rw [keys, List.mem_map]
    refine ⟨p, ?_, he⟩
    rw [removeA, List.mem_filter]
    exact ⟨hp, decide_eq_true (by rw [he]; exact hne)⟩

/-- Inserting a fresh key appends the new entry. -/
theorem insertA_of_not_mem {α : Type} (m : List (String × α)) (k : String)
    (v : α) (hk : k ∉ keys m) : insertA m k v = m ++ [(k, v)] := by
  unfold insertA
  rw [if_neg]
  intro hany
  rw [List.any_eq_true] at hany
  obtain ⟨p, hp, hpk⟩ := hany
  apply hk
  rw [← of_decide_eq_true hpk]
  exact List.mem_map_of_mem _ hp

/-- A key present after insertion was present before or is the new key. -/
theorem mem_keys_insertA_elim {α : Type} (m : List (String × α)) (k : String)
    (v : α) (x : String) (hx : x ∈ keys (insertA m k v)) :
    x ∈ keys m ∨ x = k := by
  unfold insertA at hx
  split_ifs at hx
  · rw [keys, List.mem_map] at hx
    obtain ⟨q, hq, he⟩ := hx
    rw [List.mem_map] at hq
    obtain ⟨p, hp, hfe⟩ := hq
    by_cases hpk : p.1 = k
    · right; rw [← he, ← hfe, if_pos hpk]
    · left; rw [← he, ← hfe, if_neg hpk]; exact List.mem_map_of_mem _ hp
  · rw [keys, List.mem_map] at hx
    obtain ⟨p, hp, he⟩ := hx
    rw [List.mem_append] at hp
    rcases hp with hp | hp
    · left; rw [← he]; exact List.mem_map_of_mem _ hp
    · right; rw [List.mem_singleton] at hp; rw [← he, hp]

/-- Insertion never loses existing keys. -/
theorem mem_keys_insertA_of_mem {α : Type} (m : List (String × α)) (k : String)
    (v : α) (x : String) (hx : x ∈ keys m) : x ∈ keys (insertA m k v) := by
  unfold insertA
  split_ifs
  · rw [keys, List.mem_map] at hx ⊢
    obtain ⟨p, hp, he⟩ := hx
    refine ⟨if p.1 = k then (k, v) else p, List.mem_map_of_mem _ hp, ?_⟩
    by_cases hpk : p.1 = k
    · rw [if_pos hpk, ← he, ← hpk]
    · rw [if_neg hpk]; exact he
  · rw [keys, List.mem_map] at hx ⊢
    obtain ⟨p, hp, he⟩ := hx
    exact ⟨p, List.mem_append_left _ hp, he⟩

/-- The inserted key is present after insertion. -/
theorem mem_keys_insertA_self {α : Type} (m : List (String × α)) (k : String)
    (v : α) : k ∈ keys (insertA m k v) := by
  unfold insertA
  split_ifs with hc
  · rw [List.any_eq_true] at hc
    obtain ⟨p, hp, hpk⟩ := hc
    rw [keys, List.mem_map]
    exact ⟨if p.1 = k then (k, v) else p, List.mem_map_of_mem _ hp,
      by rw [if_pos (of_decide_eq_true hpk)]⟩
  · rw [keys, List.mem_map]
    exact ⟨(k, v), List.mem_append_right _ (List.mem_singleton_self _), rfl⟩

/-- Filtering a dict only shrinks its key set. -/
theorem keys_filter_sub {α : Type} (m : List (String × α))
    (pred : String × α → Bool) (x : String)
    (hx : x ∈ keys (m.filter pred)) : x ∈ keys m := by
  rw [keys, List.mem_map] at hx
  obtain ⟨p, hp, he⟩ := hx
  rw [← he]
  exact List.mem_map_of_mem _ (List.mem_of_mem_filter hp)

/-- `_save_state` does not touch the two maps. -/
theorem doSave_torrents (st : EngineState) (w : Bool) :
    (doSave st w).torrents = st.torrents := by
  unfold doSave; split_ifs <;> rfl

/-- `_save_state` does not touch the descriptor map. -/
theorem doSave_meta (st : EngineState) (w : Bool) :
    (doSave st w).meta = st.meta := by
  unfold doSave; split_ifs <;> rfl

/-- `_save_state` does not touch the legacy file. -/
theorem doSave_fsLegacy (st : EngineState) (w : Bool) :
    (doSave st w).fsLegacy = st.fsLegacy := by
  unfold doSave; split_ifs <;> rfl

/-- The persisted ids of a file just written by `_save_state` are exactly
the descriptor-map keys. -/
theorem persistedIds_save (meta : List (String × Descriptor)) :
    persistedIds (FileState.json (saveStateJson meta)) = keys meta := by
  have e : persistedIds (FileState.json (saveStateJson meta)) =
      (meta.map descItemJson).filterMap (fun item =>
        match item with
        | Json.obj kvs =>
          match jlookup kvs "id" with
          | some (Json.str s) => some s
          | _ => none
        | _ => none) := rfl
  rw [e]
  clear e
  induction meta with
  | nil => rfl
  | cons p rest ih =>
    rw [List.map_cons, List.filterMap_cons]
    have hp : (match descItemJson p with
        | Json.obj kvs =>
          match jlookup kvs "id" with
          | some (Json.str s) => some s
          | _ => none
        | _ => none) = some p.1 := rfl
    rw [hp, ih]
    rfl

/-- In a dict with unique keys, two entries with the same key agree. -/
theorem assoc_value_unique {α : Type} (m : List (String × α))
    (hnd : (keys m).Nodup) (k : String) (a b : α)
    (ha : (k, a) ∈ m) (hb : (k, b) ∈ m) : a = b := by
  induction m with
  | nil => cases ha
  | cons p rest ih =>
    rw [keys, List.map_cons, List.nodup_cons] at hnd
    rcases List.mem_cons.mp ha with ha1 | ha1 <;>
      rcases List.mem_cons.mp hb with hb1 | hb1
    · rw [← hb1] at ha1
      exact (Prod.ext_iff.mp ha1).2
    · exfalso
      have hk := hnd.1
      rw [← ha1] at hk
      have hmem : k ∈ List.map Prod.fst rest := List.mem_map_of_mem Prod.fst hb1
      exact hk hmem
    · exfalso
      have hk := hnd.1
      rw [← hb1] at hk
      have hmem : k ∈ List.map Prod.fst rest := List.mem_map_of_mem Prod.fst ha1
      exact hk hmem
    · exact ih hnd.2 ha1 hb1

/-- Every snapshot id names an entry of the live map whose status query
succeeded. -/
theorem mem_snapshot_ids (st : EngineState) (i : String)
    (hmem : i ∈ (getStatusList st).1.map Snapshot.id) :
    ∃ p, p ∈ st.torrents ∧ p.1 = i ∧ p.2.status.isSome = true := by
  rw [List.mem_map] at hmem
  obtain ⟨snap, hsnap, hid⟩ := hmem
  have e : (getStatusList st).1 = st.torrents.filterMap
      (fun p => p.2.status.map (fun s => mkSnapshot p.1 p.2 s)) := rfl
  rw [e, List.mem_filterMap] at hsnap
  obtain ⟨p, hp, hmap⟩ := hsnap
  cases hst : p.2.status with
  | none =>
    rw [hst] at hmap
    cases hmap
  | some s0 =>
    rw [hst] at hmap
    simp only [Option.map_some'] at hmap
    rw [Option.some_inj] at hmap
    refine ⟨p, hp, ?_, by rw [hst]; rfl⟩
    rw [← hmap] at hid
    exact hid

/-- The list-indexing raw-state mapping of the code agrees with the
spec's explicit enumeration. -/
theorem rawStateName_eq_spec (s : Int) : rawStateName s = specRawStateName s := by
  by_cases h : 0 ≤ s ∧ s < (state_names.length : Int)
  · have h8 : (state_names.length : Int) = 8 := rfl
    obtain ⟨h0, h1⟩ := h
    rw [h8] at h1
    interval_cases s <;> rfl
  · have h8 : (state_names.length : Int) = 8 := rfl
    rw [h8] at h
    unfold rawStateName specRawStateName
    rw [h8]
    rw [if_neg (by omega)]
    split_ifs <;> first | rfl | omega

/-! ### The claims -/

/-- C3: for every raw engine status, the display state reported by
`get_status_list` is derived by first-match precedence — "Paused" on
`is_paused` (regardless of raw state or seeding), else "Seeding" on
`is_seeding`, else the raw state mapped through the fixed 8-value
enumeration (with "Unknown" out of range) relabeled "Resuming" whenever
`0 < progress < 1` and `download_rate < 50 KiB/s`. -/
theorem display_state_follows_spec (tid : String) (h : Handle) (s : RawStatus) :
    (mkSnapshot tid h s).state = specDisplayState s := by
  have e : (mkSnapshot tid h s).state =
      displayState (rawStateName s.state) s.paused s.is_seeding
        s.progress s.download_rate := rfl
  rw [e, rawStateName_eq_spec]
  unfold displayState specDisplayState
  rfl

/-- C4 as stated is false: a raw status can have `progress == 1.0` while
the engine still reports positive remaining bytes and a positive rate, and
then `eta` is the quotient, not `-1`.  Here `progress = 1`,
`total_wanted = 100`, `total_done = 0`, `download_rate = 10` yields
`eta = 10`. -/
theorem eta_progress_one_counterexample :
    (mkSnapshot "t" hEmpty rawDoneButRemaining).progress = 1 ∧
    (mkSnapshot "t" hEmpty rawDoneButRemaining).eta = 10 ∧
    (mkSnapshot "t" hEmpty rawDoneButRemaining).eta ≠ -1 := by
  have he : (mkSnapshot "t" hEmpty rawDoneButRemaining).eta = etaOf 100 0 10 := rfl
  have hv : etaOf 100 0 10 = 10 := by
    simp only [etaOf]
    norm_num
  refine ⟨rfl, ?_, ?_⟩ <;> rw [he, hv]
  decide

/-- C4 amended: with `remaining = max(0, total_size − downloaded)` taken
over the snapshot's own (effective) total size, `eta` equals
`floor(remaining / download_rate)` when `download_rate > 0` and
`remaining > 0`, and equals `-1` otherwise — in particular whenever
`download_rate = 0` or `downloaded ≥ total_size` (the `progress == 1.0`
clause of the original claim holds only through this, since `progress`
itself never enters the ETA computation). -/
theorem eta_rule (tid : String) (h : Handle) (s : RawStatus) :
    (0 < (mkSnapshot tid h s).download_rate ∧
        0 < max 0 ((mkSnapshot tid h s).total_size - (mkSnapshot tid h s).downloaded) →
      (mkSnapshot tid h s).eta =
        ⌊((max 0 ((mkSnapshot tid h s).total_size - (mkSnapshot tid h s).downloaded) : Int) : ℚ) /
          (mkSnapshot tid h s).download_rate⌋) ∧
    (¬ (0 < (mkSnapshot tid h s).download_rate ∧
        0 < max 0 ((mkSnapshot tid h s).total_size - (mkSnapshot tid h s).downloaded)) →
      (mkSnapshot tid h s).eta = -1) ∧
    ((mkSnapshot tid h s).download_rate = 0 → (mkSnapshot tid h s).eta = -1) ∧
    ((mkSnapshot tid h s).total_size ≤ (mkSnapshot tid h s).downloaded →
      (mkSnapshot tid h s).eta = -1) := by
  have pts : (mkSnapshot tid h s).total_size = effectiveTotalSize h s.total_wanted := rfl
  have pdl : (mkSnapshot tid h s).downloaded = s.total_done := rfl
  have pdr : (mkSnapshot tid h s).download_rate = s.download_rate := rfl
  have e : (mkSnapshot tid h s).eta =
      if 0 < s.download_rate ∧
          0 < max 0 (effectiveTotalSize h s.total_wanted - s.total_done) then
        ⌊((max 0 (effectiveTotalSize h s.total_wanted - s.total_done) : Int) : ℚ) /
          s.download_rate⌋
      else -1 := rfl
  rw [pts, pdl, pdr, e]
  refine ⟨fun hc => ?_, fun hc => ?_, fun hc => ?_, fun hc => ?_⟩
  · rw [if_pos hc]
  · rw [if_neg hc]
  · rw [if_neg (by rw [hc]; intro hx; exact lt_irrefl 0 hx.1)]
  · rw [if_neg (by intro hx; have := hx.2; omega)]

/-- Witness for `eta_rule`: a concrete stalled download where
`remaining = 58000` and `rate = 10000` trigger the quotient branch. -/
theorem eta_rule_witness :
    (mkSnapshot "t" hEmpty rawStalled).eta =
      ⌊((max 0 ((mkSnapshot "t" hEmpty rawStalled).total_size -
          (mkSnapshot "t" hEmpty rawStalled).downloaded) : Int) : ℚ) /
        (mkSnapshot "t" hEmpty rawStalled).download_rate⌋ :=
  (eta_rule "t" hEmpty rawStalled).1 (by decide)

/-- C5: the effective total size equals the prioritized file-size sum
exactly when info and priorities are retrievable, counts match and the
sum is positive; in every other case it is the engine's wanted total. -/
theorem effective_total_size_rule (h : Handle) (wanted : Int) :
    (∀ info prios, h.torrentInfo = some info → h.filePriorities = some prios →
       prios.length = info.fileSizes.length →
       0 < prioritizedSize info.fileSizes prios →
       effectiveTotalSize h wanted = prioritizedSize info.fileSizes prios) ∧
    (¬ prioritizedSelection h → effectiveTotalSize h wanted = wanted) := by
  constructor
  · intro info prios hinfo hprios hlen hpos
    have hne : prios ≠ [] := by
      intro hnil
      rw [hnil] at hpos
      simp [prioritizedSize] at hpos
    unfold effectiveTotalSize
    rw [hinfo]
    simp only [hprios, Option.getD_some]
    rw [if_pos ⟨hne, hlen⟩, if_pos hpos]
  · intro hnot
    unfold effectiveTotalSize
    cases hinfo : h.torrentInfo with
    | none => rfl
    | some info =>
      cases hprios : h.filePriorities with
      | none => simp
      | some prios =>
        simp only [Option.getD_some]
        by_cases hc : prios ≠ [] ∧ prios.length = info.fileSizes.length
        · rw [if_pos hc]
          by_cases hpos : 0 < prioritizedSize info.fileSizes prios
          · exact absurd ⟨info, prios, hinfo, hprios, hc.2, hpos⟩ hnot
          · rw [if_neg hpos]
        · rw [if_neg hc]

/-- Witness for `effective_total_size_rule`: three files of sizes
100, 200, 300 with priorities 1, 0, 4 give an effective total of 400
instead of the wanted total 7. -/
theorem effective_total_size_rule_witness :
    effectiveTotalSize hPartial 7 = prioritizedSize [100, 200, 300] [1, 0, 4] :=
  (effective_total_size_rule hPartial 7).1 ⟨[100, 200, 300], "demo"⟩ [1, 0, 4]
    rfl rfl (by decide) (by decide)

/-- C1 as stated is false: `remove` never calls `_save_state`, so the
persisted descriptor set still contains the removed id.  Concretely, with
one tracked torrent "a" and an in-sync state file, `remove "a" false`
empties both maps but leaves the file byte-for-byte unchanged, with "a"
still among its persisted ids. -/
theorem remove_not_persisted_counterexample :
    "a" ∈ persistedIds (remove stOne "a" false).fsCurrent ∧
    keys (remove stOne "a" false).meta = [] ∧
    keys (remove stOne "a" false).torrents = [] ∧
    (remove stOne "a" false).fsCurrent = stOne.fsCurrent := by
  refine ⟨?_, ?_, ?_, rfl⟩ <;> decide

/-- C1 amended: `Remove(id, deleteFiles)` removes `id` from both the live
handle map and the descriptor map even if the engine call fails, and a
subsequent `ListStatus()` never includes `id`; but it does not itself
persist the updated state — the persisted descriptor set drops `id` only
once the next `_save_state` (from an add, a pause or close) runs. -/
theorem remove_rule (st : EngineState) (tid : String) (df : Bool) :
    tid ∉ keys (remove st tid df).torrents ∧
    tid ∉ keys (remove st tid df).meta ∧
    (remove st tid df).fsCurrent = st.fsCurrent ∧
    (remove st tid df).fsLegacy = st.fsLegacy ∧
    tid ∉ (getStatusList (remove st tid df)).1.map Snapshot.id ∧
    tid ∉ persistedIds (doSave (remove st tid df) true).fsCurrent := by
  refine ⟨not_mem_keys_removeA st.torrents tid, not_mem_keys_removeA st.meta tid,
    rfl, rfl, ?_, ?_⟩
  · intro hmem
    obtain ⟨p, hp, hpi, _⟩ := mem_snapshot_ids (remove st tid df) tid hmem
    apply not_mem_keys_removeA st.torrents tid
    have hkm : p.1 ∈ keys (remove st tid df).torrents :=
      List.mem_map_of_mem Prod.fst hp
    rw [hpi] at hkm
    exact hkm
  · have e : (doSave (remove st tid df) true).fsCurrent =
        FileState.json (saveStateJson (removeA st.meta tid)) := rfl
    rw [e, persistedIds_save]
    exact not_mem_keys_removeA st.meta tid

/-- Witness for `remove_rule` at the concrete one-torrent state. -/
theorem remove_rule_witness :
    "a" ∉ keys (remove stOne "a" false).torrents ∧
    "a" ∉ keys (remove stOne "a" false).meta ∧
    (remove stOne "a" false).fsCurrent = stOne.fsCurrent ∧
    (remove stOne "a" false).fsLegacy = stOne.fsLegacy ∧
    "a" ∉ (getStatusList (remove stOne "a" false)).1.map Snapshot.id ∧
    "a" ∉ persistedIds (doSave (remove stOne "a" false) true).fsCurrent :=
  remove_rule stOne "a" false

/-- C8 as stated is false: `pause` ends with an unconditional
`_save_state` (line 233), so at an out-of-sync state — reachable, since
`remove` never saves — pausing an unknown id rewrites the persisted file
with different content.  Concretely, after `remove stOne "a" false` the
file still lists "a"; `pause` on the untracked id "z" then rewrites it
from the emptied descriptor map, and "a" disappears from its persisted
ids. -/
theorem pause_unknown_alters_file_counterexample :
    "z" ∉ keys (remove stOne "a" false).torrents ∧
    "a" ∈ persistedIds (remove stOne "a" false).fsCurrent ∧
    "a" ∉ persistedIds (pause (remove stOne "a" false) "z" true).fsCurrent := by
  refine ⟨?_, ?_, ?_⟩ <;> decide

/-- C8 amended: for every id not tracked in the live map, `pause` and
`resume` do not raise (every failure path in the source is swallowed, so
both are total) and change neither map; `resume` never touches the
persisted file, while `pause` unconditionally rewrites it with the
serialized current descriptor map — hence its content is unchanged
exactly when the file was already in sync with `_meta`, and changes at an
out-of-sync state such as one reached by a preceding `remove`. -/
theorem pause_rewrite_rule (st : EngineState) (tid : String)
    (writeOk : Bool) (hunknown : tid ∉ keys st.torrents) :
    (pause st tid writeOk).torrents = st.torrents ∧
    (pause st tid writeOk).meta = st.meta ∧
    (pause st tid writeOk).fsLegacy = st.fsLegacy ∧
    resume st tid = st ∧
    (pause st tid true).fsCurrent = FileState.json (saveStateJson st.meta) ∧
    (pause st tid false).fsCurrent = st.fsCurrent ∧
    (st.fsCurrent = FileState.json (saveStateJson st.meta) →
      (pause st tid writeOk).fsCurrent = st.fsCurrent) := by
  refine ⟨doSave_torrents st writeOk, doSave_meta st writeOk,
    doSave_fsLegacy st writeOk, rfl, rfl, rfl, ?_⟩
  intro hsync
  unfold pause doSave
  cases writeOk
  · rfl
  · rw [if_pos rfl, hsync]

/-- Witness for `pause_rewrite_rule`: the id "z" is not tracked by
`stOne`, whose file is in sync, so the rewrite reproduces its content. -/
theorem pause_rewrite_rule_witness :
    (pause stOne "z" true).torrents = stOne.torrents ∧
    (pause stOne "z" true).meta = stOne.meta ∧
    (pause stOne "z" true).fsLegacy = stOne.fsLegacy ∧
    resume stOne "z" = stOne ∧
    (pause stOne "z" true).fsCurrent = FileState.json (saveStateJson stOne.meta) ∧
    (pause stOne "z" false).fsCurrent = stOne.fsCurrent ∧
    (pause stOne "z" true).fsCurrent = stOne.fsCurrent :=
  ⟨(pause_rewrite_rule stOne "z" true (by decide)).1,
   (pause_rewrite_rule stOne "z" true (by decide)).2.1,
   (pause_rewrite_rule stOne "z" true (by decide)).2.2.1,
   (pause_rewrite_rule stOne "z" true (by decide)).2.2.2.1,
   (pause_rewrite_rule stOne "z" true (by decide)).2.2.2.2.1,
   (pause_rewrite_rule stOne "z" false (by decide)).2.2.2.2.2.1,
   (pause_rewrite_rule stOne "z" true (by decide)).2.2.2.2.2.2 rfl⟩

/-- C9: when the engine reports a tracked handle invalid (its status
query raises), `get_status_list` omits it from the returned snapshots and
pops it from the live map only: the descriptor map and both state files
are untouched, every other valid entry's snapshot is still returned, and
the id stays absent from subsequent snapshot lists. -/
theorem invalid_handle_eviction (st : EngineState) (tid : String) (hd : Handle)
    (hmem : (tid, hd) ∈ st.torrents) (hbad : hd.status = none)
    (hnd : (keys st.torrents).Nodup) :
    tid ∉ (getStatusList st).1.map Snapshot.id ∧
    tid ∉ keys (getStatusList st).2.torrents ∧
    (getStatusList st).2.meta = st.meta ∧
    (getStatusList st).2.fsCurrent = st.fsCurrent ∧
    (getStatusList st).2.fsLegacy = st.fsLegacy ∧
    (∀ tid2 h2 s2, (tid2, h2) ∈ st.torrents → h2.status = some s2 →
      mkSnapshot tid2 h2 s2 ∈ (getStatusList st).1) ∧
    tid ∉ (getStatusList (getStatusList st).2).1.map Snapshot.id := by
  have hkey : ∀ p, p ∈ st.torrents → p.1 = tid → p.2.status = none := by
    intro p hp hpk
    have hp2 : (tid, p.2) ∈ st.torrents := by
      rw [← hpk]
      exact hp
    have hv := assoc_value_unique st.torrents hnd tid p.2 hd hp2 hmem
    rw [hv]
    exact hbad
  have e1 : (getStatusList st).2.torrents =
      st.torrents.filter (fun p => p.2.status.isSome) := rfl
  refine ⟨?_, ?_, rfl, rfl, rfl, ?_, ?_⟩
  · intro hin
    obtain ⟨p, hp, hpk, hsome⟩ := mem_snapshot_ids st tid hin
    rw [hkey p hp hpk] at hsome
    cases hsome
  · intro hin
    rw [e1, keys, List.mem_map] at hin
    obtain ⟨p, hp, he⟩ := hin
    rw [List.mem_filter] at hp
    have hnone := hkey p hp.1 he
    have hs := hp.2
    rw [hnone] at hs
    cases hs
  · intro tid2 h2 s2 hmem2 hst
    have e : (getStatusList st).1 = st.torrents.filterMap
        (fun p => p.2.status.map (fun s => mkSnapshot p.1 p.2 s)) := rfl
    rw [e, List.mem_filterMap]
    refine ⟨(tid2, h2), hmem2, ?_⟩
    rw [hst]
    rfl
  · intro hin
    obtain ⟨p, hp, hpk, hsome⟩ := mem_snapshot_ids (getStatusList st).2 tid hin
    rw [e1] at hp
    have hnone := hkey p (List.mem_of_mem_filter hp) hpk
    rw [hnone] at hsome
    cases hsome

/-- Witness for `invalid_handle_eviction`: in `stTwo`, the invalidated
entry "a" makes no snapshot. -/
theorem invalid_handle_eviction_witness :
    "a" ∉ (getStatusList stTwo).1.map Snapshot.id :=
  (invalid_handle_eviction stTwo "a" hEmpty (List.mem_cons_self _ _) rfl
    (by decide)).1

/-- The two insertions of `recordAdd` preserve the live-keys invariant. -/
theorem liveSub_recordAdd (st : EngineState) (hinv : liveSub st)
    (tid : String) (h : Handle) (d : Descriptor) (writeOk : Bool) :
    liveSub (recordAdd st tid h d writeOk) := by
  intro k hk
  have e1 : (recordAdd st tid h d writeOk).torrents = insertA st.torrents tid h := by
    rw [recordAdd, doSave_torrents]
  have e2 : (recordAdd st tid h d writeOk).meta = insertA st.meta tid d := by
    rw [recordAdd, doSave_meta]
  rw [e1] at hk
  rw [e2]
  rcases mem_keys_insertA_elim st.torrents tid h k hk with hk1 | hkeq
  · exact mem_keys_insertA_of_mem st.meta tid d k (hinv k hk1)
  · rw [hkeq]
    exact mem_keys_insertA_self st.meta tid d

/-- C10: every operation preserves the invariant that each live-handle
key is also a descriptor key — the two adds insert into both maps under
the same engine-derived id, `remove` pops both, and status-query eviction
and `close` shrink only the live map, never the descriptor map. -/
theorem live_keys_invariant (eng : Engine) (st : EngineState) (hinv : liveSub st) :
    (∀ path writeOk tid st',
        addTorrentFile eng st path writeOk = Except.ok (tid, st') → liveSub st') ∧
    (∀ uri writeOk tid st',
        addMagnet eng st uri writeOk = Except.ok (tid, st') → liveSub st') ∧
    (∀ tid df, liveSub (remove st tid df)) ∧
    (liveSub (getStatusList st).2 ∧ (getStatusList st).2.meta = st.meta) ∧
    (∀ writeOk, liveSub (close st writeOk) ∧ (close st writeOk).meta = st.meta) ∧
    (∀ tid writeOk, liveSub (pause st tid writeOk)) ∧
    (∀ tid, liveSub (resume st tid)) := by
  refine ⟨?_, ?_, ?_, ⟨?_, rfl⟩, ?_, ?_, ?_⟩
  · intro path writeOk tid st' hok
    cases hadd : eng.addFile path with
    | none =>
      rw [addTorrentFile, hadd] at hok
      cases hok
    | some pr =>
      rw [addTorrentFile, hadd] at hok
      injection hok with hok'
      have hst : st' = recordAdd st pr.1 pr.2 (Descriptor.mk "file" path) writeOk :=
        ((Prod.ext_iff.mp hok').2).symm
      rw [hst]
      exact liveSub_recordAdd st hinv pr.1 pr.2 _ writeOk
  · intro uri writeOk tid st' hok
    cases hadd : eng.addMagnet uri with
    | none =>
      rw [addMagnet, hadd] at hok
      cases hok
    | some pr =>
      rw [addMagnet, hadd] at hok
      injection hok with hok'
      have hst : st' = recordAdd st pr.1 pr.2 (Descriptor.mk "magnet" uri) writeOk :=
        ((Prod.ext_iff.mp hok').2).symm
      rw [hst]
      exact liveSub_recordAdd st hinv pr.1 pr.2 _ writeOk
  · intro tid df k hk
    have e1 : (remove st tid df).torrents = removeA st.torrents tid := rfl
    have e2 : (remove st tid df).meta = removeA st.meta tid := rfl
    rw [e1, mem_keys_removeA] at hk
    rw [e2, mem_keys_removeA]
    exact ⟨hinv k hk.1, hk.2⟩
  · intro k hk
    have e1 : (getStatusList st).2.torrents =
        st.torrents.filter (fun p => p.2.status.isSome) := rfl
    rw [e1] at hk
    exact hinv k (keys_filter_sub st.torrents _ k hk)
  · intro writeOk
    constructor
    · intro k hk
      have e1 : (close st writeOk).torrents = ([] : List (String × Handle)) := by
        rw [close, doSave_torrents]
      rw [e1] at hk
      cases hk
    · rw [close, doSave_meta]
  · intro tid writeOk k hk
    have e1 : (pause st tid writeOk).torrents = st.torrents :=
      doSave_torrents st writeOk
    have e2 : (pause st tid writeOk).meta = st.meta := doSave_meta st writeOk
    rw [e1] at hk
    rw [e2]
    exact hinv k hk
  · intro tid k hk
    exact hinv k hk

/-- Witness for `live_keys_invariant`: closing the two-torrent state
leaves its descriptor map intact. -/
theorem live_keys_invariant_witness :
    (close stTwo true).meta = stTwo.meta :=
  ((live_keys_invariant engNone stTwo
    (by decide : ∀ k ∈ keys stTwo.torrents, k ∈ keys stTwo.meta)).2.2.2.2.1 true).2

/-- Saving with a healthy disk stores the serialized descriptor map. -/
theorem doSave_fsCurrent_true (st : EngineState) :
    (doSave st true).fsCurrent = FileState.json (saveStateJson st.meta) := rfl

/-- A failed save leaves the current file untouched. -/
theorem doSave_fsCurrent_false (st : EngineState) :
    (doSave st false).fsCurrent = st.fsCurrent := rfl

/-- One restore-loop body on a well-formed truthy item performs the
corresponding engine add and records it. -/
theorem tryRestore_eq (eng : Engine) (st : EngineState) (writeOk : Bool)
    (tid0 : String) (d : Descriptor) (hd0 : Handle)
    (hkind : d.kind = "file" ∨ d.kind = "magnet")
    (hadd : engAdd eng d = some (tid0, hd0)) :
    tryRestore eng st (Json.str d.kind) (Json.str d.source) writeOk =
      recordAdd st tid0 hd0 d writeOk := by
  obtain ⟨k, s⟩ := d
  rcases hkind with hk | hk
  · rw [show (Descriptor.mk k s).kind = k from rfl] at hk
    subst hk
    rw [engAdd] at hadd
    rw [if_pos rfl] at hadd
    have e : tryRestore eng st (Json.str "file") (Json.str s) writeOk =
        (match addTorrentFile eng st s writeOk with
          | Except.ok (_, st') => st'
          | Except.error _ => st) := rfl
    have e2 : addTorrentFile eng st s writeOk =
        Except.ok (tid0, recordAdd st tid0 hd0 (Descriptor.mk "file" s) writeOk) := by
      unfold addTorrentFile
      rw [hadd]
    rw [e, e2]
  · rw [show (Descriptor.mk k s).kind = k from rfl] at hk
    subst hk
    rw [engAdd] at hadd
    have hne : (Descriptor.mk "magnet" s).kind ≠ "file" := by
      intro hc
      exact (by decide : ("magnet" : String) ≠ "file") hc
    rw [if_neg hne] at hadd
    have e : tryRestore eng st (Json.str "magnet") (Json.str s) writeOk =
        (match addMagnet eng st s writeOk with
          | Except.ok (_, st') => st'
          | Except.error _ => st) := rfl
    have e2 : addMagnet eng st s writeOk =
        Except.ok (tid0, recordAdd st tid0 hd0 (Descriptor.mk "magnet" s) writeOk) := by
      unfold addMagnet
      rw [hadd]
    rw [e, e2]

/-- The restore loop over serialized well-formed descriptors with
reproducible ids: it raises nothing, appends exactly the descriptors to
the map, rewrites the current file iff anything was added with a healthy
disk, and never touches the legacy file. -/
theorem processItems_restore (eng : Engine) (writeOk : Bool)
    (l : List (String × Descriptor)) :
    ∀ st : EngineState,
      (∀ p ∈ l, p.2.kind = "file" ∨ p.2.kind = "magnet") →
      (∀ p ∈ l, p.2.source ≠ "") →
      (∀ p ∈ l, ∃ hd0, engAdd eng p.2 = some (p.1, hd0)) →
      (∀ p ∈ l, p.1 ∉ keys st.meta) →
      (keys l).Nodup →
      ∃ st' : EngineState,
        processItems eng writeOk (l.map descItemJson) st = Except.ok st' ∧
        st'.meta = st.meta ++ l ∧
        st'.fsCurrent = (if writeOk = true ∧ l ≠ [] then
            FileState.json (saveStateJson (st.meta ++ l)) else st.fsCurrent) ∧
        st'.fsLegacy = st.fsLegacy := by
  induction l with
  | nil =>
    intro st _ _ _ _ _
    exact ⟨st, rfl, by simp, by simp, rfl⟩
  | cons p rest ih =>
    intro st hkind hsrc hadd hfresh hnd
    obtain ⟨hd0, haddp⟩ := hadd p (List.mem_cons_self p rest)
    have hkindp := hkind p (List.mem_cons_self p rest)
    have hsrcp := hsrc p (List.mem_cons_self p rest)
    have hf1 : pyFalsy (Json.str p.2.kind) = false := by
      rcases hkindp with hk | hk <;> rw [hk] <;> rfl
    have hf2 : pyFalsy (Json.str p.2.source) = false := by
      show decide (p.2.source = "") = false
      exact decide_eq_false hsrcp
    have estep0 : processItems eng writeOk
        (descItemJson p :: rest.map descItemJson) st =
        if pyFalsy (Json.str p.2.kind) || pyFalsy (Json.str p.2.source) then
          processItems eng writeOk (rest.map descItemJson) st
        else
          processItems eng writeOk (rest.map descItemJson)
            (tryRestore eng st (Json.str p.2.kind) (Json.str p.2.source) writeOk) :=
      rfl
    rw [List.map_cons, estep0, hf1, hf2]
    rw [if_neg (by decide)]
    rw [tryRestore_eq eng st writeOk p.1 p.2 hd0 hkindp haddp]
    have hnd1 : p.1 ∉ keys rest := by
      have := hnd
      rw [keys, List.map_cons, List.nodup_cons] at this
      exact this.1
    have hnd2 : (keys rest).Nodup := by
      have := hnd
      rw [keys, List.map_cons, List.nodup_cons] at this
      exact this.2
    have emeta : (recordAdd st p.1 hd0 p.2 writeOk).meta = st.meta ++ [(p.1, p.2)] := by
      rw [recordAdd, doSave_meta]
      exact insertA_of_not_mem st.meta p.1 p.2 (hfresh p (List.mem_cons_self p rest))
    have eleg : (recordAdd st p.1 hd0 p.2 writeOk).fsLegacy = st.fsLegacy := by
      rw [recordAdd, doSave_fsLegacy]
    have hfresh' : ∀ q ∈ rest, q.1 ∉ keys (recordAdd st p.1 hd0 p.2 writeOk).meta := by
      intro q hq hqk
      rw [emeta, keys, List.map_append, List.mem_append] at hqk
      rcases hqk with hqk | hqk
      · exact hfresh q (List.mem_cons_of_mem p hq) hqk
      · rw [show List.map Prod.fst [(p.1, p.2)] = [p.1] from rfl,
          List.mem_singleton] at hqk
        apply hnd1
        rw [← hqk]
        exact List.mem_map_of_mem Prod.fst hq
    obtain ⟨st', hrun, hmeta, hfs, hleg⟩ := ih (recordAdd st p.1 hd0 p.2 writeOk)
      (fun q hq => hkind q (List.mem_cons_of_mem p hq))
      (fun q hq => hsrc q (List.mem_cons_of_mem p hq))
      (fun q hq => hadd q (List.mem_cons_of_mem p hq))
      hfresh' hnd2
    refine ⟨st', hrun, ?_, ?_, ?_⟩
    · rw [hmeta, emeta, List.append_assoc, List.singleton_append]
    · rw [hfs]
      cases writeOk with
      | false =>
        rw [if_neg (show ¬(false = true ∧ rest ≠ []) from
          fun hc => Bool.false_ne_true hc.1)]
        rw [if_neg (show ¬(false = true ∧ (p :: rest) ≠ []) from
          fun hc => Bool.false_ne_true hc.1)]
        rw [recordAdd, doSave_fsCurrent_false]
      | true =>
        by_cases hrest : rest = []
        · subst hrest
          rw [if_neg (show ¬(true = true ∧ ([] : List (String × Descriptor)) ≠ [])
            from fun hc => hc.2 rfl)]
          rw [if_pos (show true = true ∧ (p :: ([] : List (String × Descriptor))) ≠ []
            from ⟨rfl, by simp⟩)]
          rw [recordAdd, doSave_fsCurrent_true]
          show FileState.json (saveStateJson (insertA st.meta p.1 p.2)) =
            FileState.json (saveStateJson (st.meta ++ p :: []))
          rw [insertA_of_not_mem st.meta p.1 p.2 (hfresh p (List.mem_cons_self p []))]
        · rw [if_pos (show true = true ∧ rest ≠ [] from ⟨rfl, hrest⟩)]
          rw [if_pos (show true = true ∧ (p :: rest) ≠ [] from ⟨rfl, by simp⟩)]
          rw [emeta, List.append_assoc, List.singleton_append]
    · rw [hleg, eleg]

/-- C2: saving a descriptor map and loading the resulting file restores
exactly the original descriptors (in order, hence as a set, by id, kind
and source).  The hypotheses scope the claim to descriptor sets the
manager actually produces: kinds are "file" or "magnet", sources are
non-empty (falsy sources are skipped by the restore loop), ids are unique
(dict keys), and the engine re-derives the same id from each source —
`_load_state` discards stored ids and recomputes them via the adds. -/
theorem save_load_roundtrip (eng : Engine)
    (metaList : List (String × Descriptor)) (writeOk removeOk : Bool)
    (hkind : ∀ p ∈ metaList, p.2.kind = "file" ∨ p.2.kind = "magnet")
    (hsrc : ∀ p ∈ metaList, p.2.source ≠ "")
    (hadd : ∀ p ∈ metaList, ∃ hd0, engAdd eng p.2 = some (p.1, hd0))
    (hnd : (keys metaList).Nodup) :
    ∃ st', loadState eng (freshState (FileState.json (saveStateJson metaList))
        FileState.absent) writeOk removeOk = Except.ok st' ∧
      st'.meta = metaList := by
  have estep : loadState eng (freshState (FileState.json (saveStateJson metaList))
      FileState.absent) writeOk removeOk =
      processItems eng writeOk (metaList.map descItemJson)
        (freshState (FileState.json (saveStateJson metaList)) FileState.absent) :=
    rfl
  rw [estep]
  obtain ⟨st', hrun, hmeta, _, _⟩ := processItems_restore eng writeOk metaList
    (freshState (FileState.json (saveStateJson metaList)) FileState.absent)
    hkind hsrc hadd
    (fun q _ hq => absurd hq (List.not_mem_nil q.1)) hnd
  exact ⟨st', hrun, by rw [hmeta]; rfl⟩

/-- Witness for `save_load_roundtrip` on a Unicode path and magnet URI. -/
theorem save_load_roundtrip_witness :
    ∃ st', loadState engPair (freshState (FileState.json (saveStateJson metaPair))
        FileState.absent) true true = Except.ok st' ∧
      st'.meta = metaPair :=
  save_load_roundtrip engPair metaPair true true (by decide) (by decide)
    (by
      intro p hp
      fin_cases hp
      · exact ⟨hEmpty, rfl⟩
      · exact ⟨hLive, rfl⟩)
    (by decide)

/-- C6 is refuted by the code: `_load_state` does `data.get("torrents", [])`
outside any `try`, so a state file holding valid JSON that is not an
object — here the list `[1]` — raises `AttributeError` to the caller
instead of being treated as empty. -/
theorem load_raises_on_nonobject_state :
    loadState engNone stBadJson true true = Except.error PyErr.attributeError :=
  rfl

/-- C7: with only the legacy file present and holding well-formed
reproducible descriptors, one load migrates: the current file ends up
holding exactly the same serialized descriptors, the legacy file is gone
when its delete succeeds and merely lingers when the delete fails (with
no descriptor lost either way), and when the rewrite itself fails the
legacy file is never deleted and nothing is loaded — the rewrite strictly
precedes the delete. -/
theorem legacy_migration (eng : Engine)
    (metaList : List (String × Descriptor)) (removeOk : Bool)
    (hkind : ∀ p ∈ metaList, p.2.kind = "file" ∨ p.2.kind = "magnet")
    (hsrc : ∀ p ∈ metaList, p.2.source ≠ "")
    (hadd : ∀ p ∈ metaList, ∃ hd0, engAdd eng p.2 = some (p.1, hd0))
    (hnd : (keys metaList).Nodup) :
    (∃ st', loadState eng (freshState FileState.absent
        (FileState.json (saveStateJson metaList))) true removeOk = Except.ok st' ∧
      st'.meta = metaList ∧
      st'.fsCurrent = FileState.json (saveStateJson metaList) ∧
      st'.fsLegacy = (if removeOk = true then FileState.absent
        else FileState.json (saveStateJson metaList))) ∧
    loadState eng (freshState FileState.absent
        (FileState.json (saveStateJson metaList))) false removeOk =
      Except.ok (freshState FileState.absent
        (FileState.json (saveStateJson metaList))) := by
  constructor
  · cases removeOk with
    | true =>
      have estep : loadState eng (freshState FileState.absent
          (FileState.json (saveStateJson metaList))) true true =
          processItems eng true (metaList.map descItemJson)
            (freshState (FileState.json (saveStateJson metaList))
              FileState.absent) := rfl
      rw [estep]
      obtain ⟨st', hrun, hmeta, hfs, hleg⟩ := processItems_restore eng true metaList
        (freshState (FileState.json (saveStateJson metaList)) FileState.absent)
        hkind hsrc hadd
        (fun q _ hq => absurd hq (List.not_mem_nil q.1)) hnd
      refine ⟨st', hrun, by rw [hmeta]; rfl, ?_, by rw [hleg]; rfl⟩
      rw [hfs]
      by_cases hl : metaList = []
      · subst hl
        rw [if_neg (by simp)]
        rfl
      · rw [if_pos ⟨rfl, hl⟩]
        rfl
    | false =>
      have estep : loadState eng (freshState FileState.absent
          (FileState.json (saveStateJson metaList))) true false =
          processItems eng true (metaList.map descItemJson)
            (freshState (FileState.json (saveStateJson metaList))
              (FileState.json (saveStateJson metaList))) := rfl
      rw [estep]
      obtain ⟨st', hrun, hmeta, hfs, hleg⟩ := processItems_restore eng true metaList
        (freshState (FileState.json (saveStateJson metaList))
          (FileState.json (saveStateJson metaList)))
        hkind hsrc hadd
        (fun q _ hq => absurd hq (List.not_mem_nil q.1)) hnd
      refine ⟨st', hrun, by rw [hmeta]; rfl, ?_, by rw [hleg]; rfl⟩
      rw [hfs]
      by_cases hl : metaList = []
      · subst hl
        rw [if_neg (by simp)]
        rfl
      · rw [if_pos ⟨rfl, hl⟩]
        rfl
  · rfl

/-- Witness for `legacy_migration` at the Unicode descriptor pair. -/
theorem legacy_migration_witness :
    (∃ st', loadState engPair (freshState FileState.absent
        (FileState.json (saveStateJson metaPair))) true true = Except.ok st' ∧
      st'.meta = metaPair ∧
      st'.fsCurrent = FileState.json (saveStateJson metaPair) ∧
      st'.fsLegacy = (if true = true then FileState.absent
        else FileState.json (saveStateJson metaPair))) ∧
    loadState engPair (freshState FileState.absent
        (FileState.json (saveStateJson metaPair))) false true =
      Except.ok (freshState FileState.absent
        (FileState.json (saveStateJson metaPair))) :=
  legacy_migration engPair metaPair true (by decide) (by decide)
    (by
      intro p hp
      fin_cases hp
      · exact ⟨hEmpty, rfl⟩
      · exact ⟨hLive, rfl⟩)
    (by decide)

end PyTorrent
